import Mathlib

/-!
Shallow embedding of `src/main.py` (pendulum_game_jam).

The program keeps an ordered sprite list `self.balls` (index 0 is the static
`center_pin` anchor) and a pymunk space holding pin-joint constraints.  We
model Python object identity with numeric ids: each `Ball` gets a unique
`bid`, each `pymunk.PinJoint` a unique `cid` (a fresh joint object is created
at every `join_balls` call).  A joint stores the two bodies it connects; we
record them as the `bid`s of the corresponding balls (`a` is the first
argument of `PinJoint`, `b` the second, matching `constraint.a` /
`constraint.b` in pymunk).

Screen coordinates are floats that only feed the external physics / rendering
libraries and the per-ball trace buffer; no branching of the chain logic
depends on them, so ball positions are omitted from the chain state and the
trace buffer is modelled separately (over opaque integer coordinates).

Fallible handlers (Python code that can raise: `space.remove` on `None` or on
an absent constraint, `list.index` on a missing element, out-of-range list
indexing) return `Option GameState`, `none` standing for an uncaught
exception.
-/

namespace PendulumGame

/-- A `pymunk.PinJoint`: `cid` models object identity, `a`/`b` are the body
(= ball) ids of the two endpoints in argument order. -/
structure Constraint where
  cid : Nat
  a : Nat
  b : Nat
deriving DecidableEq, Repr

/-- A `Ball` sprite: `bid` models object identity; `mass` is the constructor
argument; `constraint` is the `self.constraint` field (set by `join_balls`
on its first argument, i.e. it holds the joint to the ball's successor);
`isStatic` records the pymunk body type. -/
structure BallM where
  bid : Nat
  mass : Int
  constraint : Option Constraint
  isStatic : Bool
deriving DecidableEq, Repr

/-- The relevant mutable state of `MyView` plus the physics space:
`balls` is `self.balls` in order, `space` the list of constraints currently
added to `self.physics_engine.space` (in insertion order), `nextId`/`nextCid`
are fresh-identity counters, `attached` is `self.attached_sprite` (by id),
`currentBallMass` is `self.current_ball_mass`. -/
structure GameState where
  balls : List BallM
  space : List Constraint
  nextId : Nat
  nextCid : Nat
  attached : Option Nat
  currentBallMass : Int
deriving DecidableEq, Repr

def dummyBall : BallM := ⟨0, 0, none, false⟩

/-- The ball object at index `i` of `self.balls` (meaningful for `i` in range). -/
def nthBall (st : GameState) (i : Nat) : BallM :=
  st.balls.getD i dummyBall

/-- Endpoint pair of a joint. -/
def ep (c : Constraint) : Nat × Nat := (c.a, c.b)

/-- The endpoint pairs of all joints currently in the physics space. -/
def epList (st : GameState) : List (Nat × Nat) := st.space.map ep

/-- Python `list.index` by object identity (= ball id). -/
def indexOfBid : List BallM → Nat → Option Nat
  | [], _ => none
  | b :: rest, x => if b.bid = x then some 0 else (indexOfBid rest x).map (· + 1)

/-- Current field values of the ball object with id `x` (object reference
dereference). -/
def findBall (st : GameState) (x : Nat) : Option BallM :=
  st.balls.find? (fun b => b.bid == x)

/-- Python list subscript `l[i]` with negative-index wrap-around; `none` is an
`IndexError`. -/
def pyGet (l : List BallM) (i : Int) : Option BallM :=
  if 0 ≤ i then l.get? i.toNat
  else if i.natAbs ≤ l.length then l.get? (l.length - i.natAbs)
  else none

/-- `self.physics_engine.space.remove(c)`: raises when `c` is `None` or not in
the space. -/
def spaceRemove (sp : List Constraint) (c : Option Constraint) : Option (List Constraint) :=
  match c with
  | none => none
  | some c => if c ∈ sp then some (sp.erase c) else none

/-- Update of the `ball_a.constraint = constraint` assignment inside
`join_balls`, keyed by object identity. -/
def setConstraint (aBid : Nat) (c : Constraint) (b : BallM) : BallM :=
  if b.bid = aBid then { b with constraint := some c } else b

/-- `MyView.join_balls(ball_a, ball_b)`: builds a fresh `PinJoint` between the
two bodies, stores it in `ball_a.constraint` and adds it to the space.
(`ball_b` may be a ball or a raw body; both are a `bid` here.) -/
def joinBalls (st : GameState) (aBid bBid : Nat) : GameState :=
  let c : Constraint := ⟨st.nextCid, aBid, bBid⟩
  { st with
    balls := st.balls.map (setConstraint aBid c)
    space := st.space ++ [c]
    nextCid := st.nextCid + 1 }

/-- `MyView.create_ball(mass, position)`: a fresh dynamic ball appended to
`self.balls`, `constraint` initialised to `None`. -/
def createBall (st : GameState) (mass : Int) : GameState :=
  let ball : BallM := ⟨st.nextId, mass, none, false⟩
  { st with balls := st.balls ++ [ball], nextId := st.nextId + 1 }

/-- The `for ball in self.balls` joining loop of `create_balls`: skips the
`center_pin` object (id `anchorB`), otherwise joins `last_ball` to `ball` and
advances `last_ball`.  The iteration is over the ball ids present when the
loop starts (`join_balls` changes no membership or order). -/
def joinLoop (anchorB : Nat) : GameState → Nat → List Nat → GameState
  | st, _, [] => st
  | st, lastB, b :: rest =>
    if b = anchorB then joinLoop anchorB st lastB rest
    else joinLoop anchorB (joinBalls st lastB b) b rest

/-- `MyView.create_balls(masses, positions)`: creates one ball per mass, then
joins consecutive balls starting from `self.center_pin` (always the ball with
id 0, created first in `__init__`). -/
def createBalls (st : GameState) (masses : List Int) : GameState :=
  let st1 := masses.foldl createBall st
  joinLoop 0 st1 0 (st1.balls.map (fun b => b.bid))

/-- `MyView.__init__` up to the creation of `self.center_pin`: only the static
anchor ball (mass 1) is present, no constraints, `current_ball_mass = 10`. -/
def initBase : GameState :=
  { balls := [⟨0, 1, none, true⟩]
    space := []
    nextId := 1
    nextCid := 0
    attached := none
    currentBallMass := 10 }

/-- The state after `MyView.__init__`: anchor plus
`create_balls([10, 15, 20], [(500,300), (600,300), (650,300)])`. -/
def initState : GameState := createBalls initBase [10, 15, 20]

/-- Left-button branch of `on_mouse_press`: `clicked` is the first ball under
the cursor, if any (`check_for_collision_with_list` result).  Only records the
grabbed body/sprite. -/
def onMousePressLeft (st : GameState) (clicked : Option Nat) : GameState :=
  match clicked with
  | none => st
  | some x => { st with attached := some x }

/-- Right-button branch of `on_mouse_press`: creates a ball with the current
mass at the cursor and joins `self.balls[-2]` to `self.balls[-1]`. -/
def onMousePressRight (st : GameState) : Option GameState :=
  let st1 := createBall st st.currentBallMass
  match pyGet st1.balls (-2), pyGet st1.balls (-1) with
  | some a, some b => some (joinBalls st1 a.bid b.bid)
  | _, _ => none

/-- Middle-button branch of `on_mouse_press`: `clicked` is the first ball under
the cursor, if any.  Looks up its index; if nonzero, bridges
`self.balls[index-1]` to `clicked.constraint.b` and removes
`clicked.constraint` from the space (when the field is not `None`), then
removes the ball from the list and from the physics engine. -/
def onMousePressMiddle (st : GameState) (clicked : Option Nat) : Option GameState :=
  match clicked with
  | none => some st
  | some x =>
    match indexOfBid st.balls x, findBall st x with
    | some index, some sprite =>
      if index = 0 then some st
      else
        let st1? : Option GameState :=
          match sprite.constraint with
          | none => some st
          | some c =>
            match pyGet st.balls ((index : Int) - 1) with
            | none => none
            | some prev =>
              let stJ := joinBalls st prev.bid c.b
              match spaceRemove stJ.space (some c) with
              | none => none
              | some sp => some { stJ with space := sp }
        match st1? with
        | none => none
        | some st1 =>
          some { st1 with balls := st1.balls.eraseP (fun b => b.bid == x) }
    | _, _ => none

/-- `on_mouse_scroll`: `current_ball_mass += scroll_y` then clamp with
`max(·, 1)`. -/
def onMouseScroll (st : GameState) (scrollY : Int) : GameState :=
  { st with currentBallMass := max (st.currentBallMass + scrollY) 1 }

/-- `on_mouse_release`: when a sprite is attached, re-wires
`previous_ball = self.balls[index-1]` (Python subscript, so index 0 wraps to
the last element), removes and re-creates its joint to the attached sprite,
then does the same for the attached sprite's own (successor) joint if present,
and clears the attachment. -/
def onMouseRelease (st : GameState) : Option GameState :=
  match st.attached with
  | none => some st
  | some x =>
    match indexOfBid st.balls x with
    | none => none
    | some index =>
      match pyGet st.balls ((index : Int) - 1) with
      | none => none
      | some previous =>
        match spaceRemove st.space previous.constraint with
        | none => none
        | some sp1 =>
          let st1 := joinBalls { st with space := sp1 } previous.bid x
          match findBall st1 x with
          | none => none
          | some node =>
            match node.constraint with
            | none => some { st1 with attached := none }
            | some c2 =>
              match spaceRemove st1.space (some c2) with
              | none => none
              | some sp2 =>
                let st2 := joinBalls { st1 with space := sp2 } x c2.b
                some { st2 with attached := none }

/-- `applyRights st n`: `n` consecutive right-click appends. -/
def applyRights (st : GameState) : Nat → Option GameState
  | 0 => some st
  | n + 1 => (applyRights st n).bind onMousePressRight

/-- `TRACE_LENGTH` from `main.py`. -/
def TRACE_LENGTH : Nat := 4000

/-- `Ball.__init__`: `self.traces = [position]*TRACE_LENGTH` (coordinates are
opaque to the buffer logic, modelled as integer pairs). -/
def initTraces (p : Int × Int) : List (Int × Int) :=
  List.replicate TRACE_LENGTH p

/-- `Ball.pymunk_moved`: `self.traces = self.traces[1:] + [self.position]`. -/
def pymunkMoved (traces : List (Int × Int)) (p : Int × Int) : List (Int × Int) :=
  traces.drop 1 ++ [p]

/-- The link of a node at index `i` to its successor: the stored field is a
joint from this ball to the ball at `i+1` that is present in the space. -/
def ConstraintTo : Option Constraint → Nat → Nat → List Constraint → Prop
  | none, _, _, _ => False
  | some c, x, y, sp => c.a = x ∧ c.b = y ∧ c ∈ sp

instance (o : Option Constraint) (x y : Nat) (sp : List Constraint) :
    Decidable (ConstraintTo o x y sp) :=
  match o with
  | none => isFalse (fun h => h)
  | some c => inferInstanceAs (Decidable (c.a = x ∧ c.b = y ∧ c ∈ sp))

/-- Well-formed idle chain: nonempty ball list with distinct ids below the
fresh-id counter, every non-tail ball's `constraint` field holding the joint
to its successor (present in the space), the tail's field `None`, and no drag
in progress. -/
def chainInv (st : GameState) : Prop :=
  st.balls ≠ [] ∧
  (∀ b ∈ st.balls, b.bid < st.nextId) ∧
  (st.balls.map (fun b => b.bid)).Nodup ∧
  (∀ i < st.balls.length - 1,
    ConstraintTo (nthBall st i).constraint (nthBall st i).bid
      (nthBall st (i + 1)).bid st.space) ∧
  (nthBall st (st.balls.length - 1)).constraint = none ∧
  st.attached = none

instance (st : GameState) : Decidable (chainInv st) := by
  unfold chainInv; infer_instance

/-- The link endpoint pairs of an `n`-ball consecutive chain hanging off the
anchor. -/
def consecLinks (n : Nat) : List (Nat × Nat) :=
  (List.range n).map (fun i => (i, i + 1))

/-- A chain whose ball ids are `0..n` in order and whose space holds exactly
the consecutive links, with the fresh-id counter past them. -/
def ConsecChain (st : GameState) (n : Nat) : Prop :=
  st.balls.map (fun b => b.bid) = List.range (n + 1) ∧
  epList st = consecLinks n ∧
  st.nextId = n + 1

/-- The id of the ball at index 0 of `self.balls`, if any. -/
def headBid (st : GameState) : Option Nat :=
  st.balls.head?.map (fun b => b.bid)

/-- Endpoint pairs produced by joining `last` to each id of the list in
turn (the shape of the `create_balls` joining loop). -/
def chainPairs : Nat → List Nat → List (Nat × Nat)
  | _, [] => []
  | last, b :: rest => (last, b) :: chainPairs b rest

/-! ## Helper lemmas -/

theorem setConstraint_bid (x : Nat) (c : Constraint) (b : BallM) :
    (setConstraint x c b).bid = b.bid := by
  unfold setConstraint; split <;> rfl

theorem setConstraint_mass (x : Nat) (c : Constraint) (b : BallM) :
    (setConstraint x c b).mass = b.mass := by
  unfold setConstraint; split <;> rfl

theorem setConstraint_of_ne (x : Nat) (c : Constraint) (b : BallM) (h : b.bid ≠ x) :
    setConstraint x c b = b := by
  unfold setConstraint; rw [if_neg h]

theorem map_bid_setConstraint (l : List BallM) (x : Nat) (c : Constraint) :
    (l.map (setConstraint x c)).map (fun b => b.bid) = l.map (fun b => b.bid) := by
  rw [List.map_map]
  exact List.map_congr_left (fun b _ => setConstraint_bid x c b)

theorem getD_map_of_lt (g : BallM → BallM) (l : List BallM) (i : Nat) (h : i < l.length) :
    (l.map g).getD i dummyBall = g (l.getD i dummyBall) := by
  rw [List.getD_eq_getElem?_getD, List.getD_eq_getElem?_getD, List.getElem?_map,
    List.getElem?_eq_getElem h]
  rfl

theorem getD_append_of_lt (l l2 : List BallM) (i : Nat) (h : i < l.length) :
    (l ++ l2).getD i dummyBall = l.getD i dummyBall := by
  rw [List.getD_eq_getElem?_getD, List.getD_eq_getElem?_getD, List.getElem?_append,
    if_pos h]

theorem getD_concat_length (l : List BallM) (b : BallM) :
    (l ++ [b]).getD l.length dummyBall = b := by
  rw [List.getD_eq_getElem?_getD, List.getElem?_concat_length]
  rfl

theorem getD_mem_of_lt (l : List BallM) (i : Nat) (h : i < l.length) :
    l.getD i dummyBall ∈ l := by
  rw [List.getD_eq_getElem?_getD, List.getElem?_eq_getElem h]
  exact List.getElem_mem h

theorem bid_getD_inj {l : List BallM} (hnd : (l.map (fun b => b.bid)).Nodup)
    {i j : Nat} (hi : i < l.length) (hj : j < l.length)
    (he : (l.getD i dummyBall).bid = (l.getD j dummyBall).bid) : i = j := by
  have hi' : i < (l.map (fun b => b.bid)).length := by simpa using hi
  have hj' : j < (l.map (fun b => b.bid)).length := by simpa using hj
  have h1 : (l.map (fun b => b.bid))[i] = (l.getD i dummyBall).bid := by
    rw [List.getElem_map, List.getD_eq_getElem]
  have h2 : (l.map (fun b => b.bid))[j] = (l.getD j dummyBall).bid := by
    rw [List.getElem_map, List.getD_eq_getElem]
  exact (hnd.getElem_inj_iff).mp (by rw [h1, h2, he])

theorem indexOfBid_getD {l : List BallM} (hnd : (l.map (fun b => b.bid)).Nodup) :
    ∀ i, i < l.length → indexOfBid l ((l.getD i dummyBall).bid) = some i := by
  induction l with
  | nil => intro i hi; simp at hi
  | cons b t ih =>
    intro i hi
    cases i with
    | zero => simp [indexOfBid]
    | succ j =>
      have hj : j < t.length := by simpa using hi
      have hmem : (t.getD j dummyBall).bid ∈ t.map (fun b => b.bid) :=
        List.mem_map_of_mem _ (getD_mem_of_lt t j hj)
      have hne : b.bid ≠ (t.getD j dummyBall).bid := by
        intro he
        exact (List.nodup_cons.mp (by simpa using hnd)).1 (he ▸ hmem)
      have ht : (b :: t).getD (j + 1) dummyBall = t.getD j dummyBall := by
        simp [List.getD]
      rw [ht, indexOfBid, if_neg hne, ih (List.nodup_cons.mp (by simpa using hnd)).2 j hj]
      rfl

theorem indexOfBid_cons_ne {b : BallM} {t : List BallM} {x : Nat} {i : Nat}
    (h : indexOfBid (b :: t) x = some i) (hi : i ≠ 0) : b.bid ≠ x := by
  intro he
  rw [indexOfBid, if_pos he] at h
  exact hi (by injection h with h'; exact h'.symm)

theorem find?_bid_getD {l : List BallM} (hnd : (l.map (fun b => b.bid)).Nodup) :
    ∀ i, i < l.length →
      l.find? (fun b => b.bid == (l.getD i dummyBall).bid) = some (l.getD i dummyBall) := by
  induction l with
  | nil => intro i hi; simp at hi
  | cons b t ih =>
    intro i hi
    cases i with
    | zero => simp [List.find?]
    | succ j =>
      have hj : j < t.length := by simpa using hi
      have hmem : (t.getD j dummyBall).bid ∈ t.map (fun b => b.bid) :=
        List.mem_map_of_mem _ (getD_mem_of_lt t j hj)
      have hne : b.bid ≠ (t.getD j dummyBall).bid := by
        intro he
        exact (List.nodup_cons.mp (by simpa using hnd)).1 (he ▸ hmem)
      have ht : (b :: t).getD (j + 1) dummyBall = t.getD j dummyBall := by
        simp [List.getD]
      rw [ht, List.find?_cons]
      have : (b.bid == (t.getD j dummyBall).bid) = false := by
        simpa using hne
      rw [this]
      exact ih (List.nodup_cons.mp (by simpa using hnd)).2 j hj

theorem headBid_joinBalls (s : GameState) (x y : Nat) :
    headBid (joinBalls s x y) = headBid s := by
  unfold headBid joinBalls
  rw [List.head?_map, Option.map_map]
  cases s.balls.head? with
  | none => rfl
  | some b => simp [Function.comp, setConstraint_bid]

theorem pyGet_nonneg (l : List BallM) {i : Int} (h : 0 ≤ i) :
    pyGet l i = l.get? i.toNat := by
  unfold pyGet; rw [if_pos h]

theorem pyGet_m2 {l : List BallM} (h : 2 ≤ l.length) :
    pyGet l (-2) = l.get? (l.length - 2) := by
  unfold pyGet
  rw [if_neg (by decide), if_pos (by simpa using h)]
  norm_num

theorem pyGet_m1 {l : List BallM} (h : 1 ≤ l.length) :
    pyGet l (-1) = l.get? (l.length - 1) := by
  unfold pyGet
  rw [if_neg (by decide), if_pos (by simpa using h)]
  norm_num

theorem pyGet_m2_le {l : List BallM} {a : BallM} (h : pyGet l (-2) = some a) :
    2 ≤ l.length := by
  by_contra hlt
  rw [pyGet, if_neg (by decide), if_neg (by simpa using hlt)] at h
  exact Option.noConfusion h

/-! ## Claim theorems: evaluated failing inputs and counterexamples -/

/-- C1. The spec claims that middle-clicking an interior node destroys both
links incident to it, leaving (in the initial anchor+[10,15,20] scenario,
after removing ball 2) exactly the links anchor-ball1 and ball1-ball3.  The
code only removes the clicked ball's own stored joint (`clicked_sprite.constraint`,
the joint to its successor) from the space; the joint between ball 1 (id 1)
and the removed ball 2 (id 2) is merely overwritten as ball 1's reference and
stays in the physics space.  The sequence does shrink by one and the bridge
(1,3) is created, but the surviving links are (0,1), (1,2), (1,3), with (1,2)
still referencing the removed ball. -/
theorem remove_interior_leaves_predecessor_link :
    (onMousePressMiddle initState (some 2)).map
        (fun s => (s.balls.map (fun b => b.bid), epList s))
      = some ([0, 1, 3], [(0, 1), (1, 2), (1, 3)]) ∧
    (2 : Nat) ∉ [0, 1, 3] := by
  exact ⟨by decide, by decide⟩

/-- C7. The spec claims that removing the tail node destroys its predecessor
link, leaving no constraint referencing the removed node.  Middle-clicking the
tail ball 3 (whose own `constraint` field is `None`) removes nothing from the
space: the joint (2,3) survives and still references the removed ball 3.
(The "never creates a bridging link" half of the claim does hold: the space
gains no new joint.) -/
theorem remove_tail_leaves_dangling_link :
    (onMousePressMiddle initState (some 3)).map
        (fun s => (s.balls.map (fun b => b.bid), epList s))
      = some ([0, 1, 2], [(0, 1), (1, 2), (2, 3)]) ∧
    (3 : Nat) ∉ [0, 1, 2] := by
  exact ⟨by decide, by decide⟩

/-- C5. The spec claims no interactive gesture reaches an error state and in
particular that the grab-and-release path never operates on the anchor or on
a `None` link handle.  But a left press over the anchor (index 0) is not
filtered out; on release, `self.balls[index-1]` wraps to the LAST ball via
Python negative indexing, whose `constraint` field is `None`, and
`space.remove(None)` raises.  The model returns `none` (uncaught exception)
on exactly this gesture sequence from the initial state. -/
theorem grab_anchor_release_error :
    onMouseRelease (onMousePressLeft initState (some 0)) = none := by
  decide

/-- C2 counterexample. The spec claims a left press on a node destroys that
node's predecessor link.  Grabbing ball 1 in the initial state leaves the
physics space unchanged; in particular, the joint `⟨0, 0, 1⟩` between the
anchor and ball 1 (ball 1's predecessor link) is still in the space after the
press. -/
theorem press_left_destroys_no_link_cex :
    (onMousePressLeft initState (some 1)).space = initState.space ∧
    (⟨0, 0, 1⟩ : Constraint) ∈ (onMousePressLeft initState (some 1)).space ∧
    (nthBall initState 1).bid = 1 ∧
    (nthBall initState 0).constraint = some ⟨0, 0, 1⟩ := by
  exact ⟨rfl, by decide, by decide, by decide⟩

/-- C2 amended. A left press destroys no constraint and changes neither the
ball list nor the space: it only records the grabbed sprite (the node stays a
constrained body whose position is overwritten by the cursor each update;
links are destroyed and recreated only on release). -/
theorem press_left_records_attachment_only (st : GameState) (x : Nat) :
    (onMousePressLeft st (some x)).space = st.space ∧
    (onMousePressLeft st (some x)).balls = st.balls ∧
    (onMousePressLeft st (some x)).attached = some x ∧
    onMousePressLeft st none = st :=
  ⟨rfl, rfl, rfl, rfl⟩

/-- C3 counterexample. The spec claims each node's stored constraint is the
link to its predecessor (the link being owned by the later endpoint).  In the
constructed initial chain, the node at index 1 (id 1) stores the joint
`⟨1, 1, 2⟩`, which connects it to its successor at index 2 (id 2); neither
endpoint of the stored joint is the predecessor anchor (id 0). -/
theorem stored_constraint_links_successor_cex :
    (nthBall initState 1).constraint = some ⟨1, 1, 2⟩ ∧
    (nthBall initState 0).bid = 0 ∧
    (nthBall initState 2).bid = 2 ∧
    (⟨1, 1, 2⟩ : Constraint).a ≠ (nthBall initState 0).bid ∧
    (⟨1, 1, 2⟩ : Constraint).b ≠ (nthBall initState 0).bid := by
  exact ⟨by decide, by decide, by decide, by decide, by decide⟩

theorem pymunkMoved_length {ts : List (Int × Int)} (p : Int × Int)
    (h : ts.length = TRACE_LENGTH) : (pymunkMoved ts p).length = TRACE_LENGTH := by
  simp only [pymunkMoved, List.length_append, List.length_drop, List.length_cons,
    List.length_nil]
  simp only [TRACE_LENGTH] at h ⊢
  omega

theorem foldl_pymunkMoved_length (ps : List (Int × Int)) :
    ∀ ts : List (Int × Int), ts.length = TRACE_LENGTH →
      (ps.foldl pymunkMoved ts).length = TRACE_LENGTH := by
  induction ps with
  | nil => intro ts h; simpa using h
  | cons p ps ih => intro ts h; exact ih _ (pymunkMoved_length p h)

/-- C10. The trace buffer is created as `[position]*TRACE_LENGTH` (exactly
4000 entries) and each `pymunk_moved` callback drops the oldest entry and
appends the current position, so after any sequence of movement callbacks the
buffer length is exactly `TRACE_LENGTH`.  (The buffer logic reads nothing but
the buffer itself and the current position, so it is independent of the chain
topology, which is modelled separately.) -/
theorem trace_buffer_fixed_capacity (ps : List (Int × Int)) (p0 : Int × Int) :
    (initTraces p0).length = TRACE_LENGTH ∧
    (ps.foldl pymunkMoved (initTraces p0)).length = TRACE_LENGTH := by
  have h0 : (initTraces p0).length = TRACE_LENGTH := by
    simp [initTraces]
  exact ⟨h0, foldl_pymunkMoved_length ps _ h0⟩

/-- C9. `current_ball_mass` starts at 10; every scroll event adds the delta
and clamps with `max(·, 1)`, so after any scroll the configured mass is at
least 1; and a right-click appends its new ball (the new tail of the list)
with exactly the currently configured mass, leaving the configured mass
unchanged. -/
theorem mass_clamped_and_used :
    initState.currentBallMass = 10 ∧
    (∀ st : GameState, ∀ dy : Int, 1 ≤ (onMouseScroll st dy).currentBallMass) ∧
    (∀ st st' : GameState, onMousePressRight st = some st' →
      st'.balls.getLast?.map (fun b => b.mass) = some st.currentBallMass ∧
      st'.currentBallMass = st.currentBallMass) := by
  refine ⟨by decide, ?_, ?_⟩
  · intro st dy
    simp only [onMouseScroll]
    exact le_max_right _ _
  · intro st st' h
    simp only [onMousePressRight] at h
    split at h
    · injection h with h'
      subst h'
      constructor
      · simp [joinBalls, createBall, List.getLast?_map, List.getLast?_concat,
          setConstraint_mass]
      · rfl
    · exact absurd h (by simp)

theorem middle_on_head_noop (st : GameState) (b : BallM) (rest : List BallM)
    (h : st.balls = b :: rest) : onMousePressMiddle st (some b.bid) = some st := by
  have hidx : indexOfBid st.balls b.bid = some 0 := by
    rw [h, indexOfBid, if_pos rfl]
  have hfind : findBall st b.bid = some b := by
    unfold findBall
    rw [h, List.find?_cons]
    simp
  simp only [onMousePressMiddle]
  rw [hidx, hfind]
  simp

theorem right_press_headBid {st st' : GameState} (h : onMousePressRight st = some st') :
    headBid st' = headBid st := by
  simp only [onMousePressRight] at h
  split at h
  · rename_i a bb hg2 hg1
    injection h with h'
    subst h'
    rw [headBid_joinBalls]
    have hlen : 2 ≤ (createBall st st.currentBallMass).balls.length := pyGet_m2_le hg2
    have hne : st.balls ≠ [] := by
      intro he
      simp [createBall, he] at hlen
    unfold headBid createBall
    rw [List.head?_append_of_ne_nil _ hne]
  · exact absurd h (by simp)

theorem middle_headBid {st : GameState} {c : Option Nat} {st' : GameState}
    (h : onMousePressMiddle st c = some st') : headBid st' = headBid st := by
  cases c with
  | none =>
    simp only [onMousePressMiddle] at h
    injection h with h'
    rw [← h']
  | some x =>
    simp only [onMousePressMiddle] at h
    split at h
    · rename_i index sprite hidx hf
      split at h
      · injection h with h'
        rw [← h']
      · rename_i hi
        cases hballs : st.balls with
        | nil => rw [hballs] at hidx; exact absurd hidx (by simp [indexOfBid])
        | cons b t =>
          have hbne : b.bid ≠ x := indexOfBid_cons_ne (hballs ▸ hidx) hi
          have hbeq : (b.bid == x) = false := by simpa using hbne
          cases hc : sprite.constraint with
          | none =>
            rw [hc] at h
            simp only [] at h
            injection h with h'
            rw [← h']
            simp [headBid, hballs, List.eraseP_cons, hbeq]
          | some c0 =>
            rw [hc] at h
            simp only [] at h
            cases hpg : pyGet st.balls ((index : Int) - 1) with
            | none =>
              rw [hpg] at h
              simp at h
            | some prev =>
              rw [hpg] at h
              simp only [] at h
              cases hsr : spaceRemove (joinBalls st prev.bid c0.b).space (some c0) with
              | none =>
                rw [hsr] at h
                simp at h
              | some sp =>
                rw [hsr] at h
                simp only [] at h
                injection h with h'
                rw [← h']
                simp [headBid, joinBalls, hballs, List.eraseP_cons, setConstraint_bid,
                  hbeq]
    · exact absurd h (by simp)

theorem release_headBid {st st' : GameState} (h : onMouseRelease st = some st') :
    headBid st' = headBid st := by
  simp only [onMouseRelease] at h
  split at h
  · injection h with h'
    rw [← h']
  · rename_i x hx
    split at h
    · simp at h
    · rename_i index hidx
      cases hpg : pyGet st.balls ((index : Int) - 1) with
      | none =>
        rw [hpg] at h
        simp at h
      | some previous =>
        rw [hpg] at h
        simp only [] at h
        cases hsr : spaceRemove st.space previous.constraint with
        | none =>
          rw [hsr] at h
          simp at h
        | some sp1 =>
          rw [hsr] at h
          simp only [] at h
          cases hfb : findBall (joinBalls { st with space := sp1 } previous.bid x) x with
          | none =>
            rw [hfb] at h
            simp at h
          | some node =>
            rw [hfb] at h
            simp only [] at h
            cases hnc : node.constraint with
            | none =>
              rw [hnc] at h
              simp only [] at h
              injection h with h'
              rw [← h']
              show headBid (joinBalls { st with space := sp1 } previous.bid x) = headBid st
              rw [headBid_joinBalls]
              rfl
            | some c2 =>
              rw [hnc] at h
              simp only [] at h
              cases hsr2 : spaceRemove
                  (joinBalls { st with space := sp1 } previous.bid x).space (some c2) with
              | none =>
                rw [hsr2] at h
                simp at h
              | some sp2 =>
                rw [hsr2] at h
                simp only [] at h
                injection h with h'
                rw [← h']
                show headBid (joinBalls
                  { joinBalls { st with space := sp1 } previous.bid x with space := sp2 }
                  x c2.b) = headBid st
                rw [headBid_joinBalls]
                show headBid (joinBalls { st with space := sp1 } previous.bid x) = headBid st
                rw [headBid_joinBalls]
                rfl

/-- C8. The anchor (`center_pin`) is created once in `__init__` as a static
body with mass 1 and sits at index 0 of the constructed chain; middle-clicking
it is a no-op (the `index != 0` guard rejects it), and no mouse handler ever
changes which ball is at index 0, so the anchor is never removed and always
stays first. -/
theorem anchor_static_first_never_removed :
    ((nthBall initState 0).bid = 0 ∧ (nthBall initState 0).isStatic = true ∧
      (nthBall initState 0).mass = 1) ∧
    (∀ st : GameState, ∀ b : BallM, ∀ rest : List BallM,
      st.balls = b :: rest → onMousePressMiddle st (some b.bid) = some st) ∧
    (∀ st : GameState, ∀ c : Option Nat, ∀ st' : GameState,
      onMousePressMiddle st c = some st' → headBid st' = headBid st) ∧
    (∀ st st' : GameState, onMousePressRight st = some st' → headBid st' = headBid st) ∧
    (∀ st st' : GameState, onMouseRelease st = some st' → headBid st' = headBid st) ∧
    (∀ st : GameState, ∀ c : Option Nat, headBid (onMousePressLeft st c) = headBid st) ∧
    (∀ st : GameState, ∀ d : Int, headBid (onMouseScroll st d) = headBid st) := by
  refine ⟨⟨by decide, by decide, by decide⟩, middle_on_head_noop, ?_, ?_, ?_, ?_, ?_⟩
  · intro st c st' h
    exact middle_headBid h
  · intro st st' h
    exact right_press_headBid h
  · intro st st' h
    exact release_headBid h
  · intro st c
    cases c <;> rfl
  · intro st d
    rfl

/-- C8 witness: the parts with hypotheses, applied at the initial state. -/
theorem anchor_static_first_never_removed_witness :
    onMousePressMiddle initState (some 0) = some initState ∧
    headBid ((onMousePressRight initState).getD initBase) = headBid initState := by
  constructor
  · exact anchor_static_first_never_removed.2.1 initState ⟨0, 1, some ⟨0, 0, 1⟩, true⟩
      [⟨1, 10, some ⟨1, 1, 2⟩, false⟩, ⟨2, 15, some ⟨2, 2, 3⟩, false⟩,
        ⟨3, 20, none, false⟩] (by decide)
  · exact anchor_static_first_never_removed.2.2.2.1 initState
      ((onMousePressRight initState).getD initBase) (by decide)

/-- C9 witness: scroll clamping and right-click mass at concrete inputs. -/
theorem mass_clamped_and_used_witness :
    1 ≤ (onMouseScroll initState (-100)).currentBallMass ∧
    ((onMousePressRight initState).getD initBase).balls.getLast?.map (fun b => b.mass)
      = some initState.currentBallMass := by
  constructor
  · exact mass_clamped_and_used.2.1 initState (-100)
  · exact (mass_clamped_and_used.2.2 initState
      ((onMousePressRight initState).getD initBase) (by decide)).1

theorem foldl_createBall_bids (masses : List Int) : ∀ st : GameState,
    (masses.foldl createBall st).balls.map (fun b => b.bid)
        = st.balls.map (fun b => b.bid) ++ List.range' st.nextId masses.length ∧
    (masses.foldl createBall st).space = st.space ∧
    (masses.foldl createBall st).nextId = st.nextId + masses.length ∧
    (masses.foldl createBall st).nextCid = st.nextCid := by
  induction masses with
  | nil => intro st; simp
  | cons m ms ih =>
    intro st
    obtain ⟨h1, h2, h3, h4⟩ := ih (createBall st m)
    refine ⟨?_, ?_, ?_, ?_⟩
    · rw [List.foldl_cons, h1]
      simp [createBall, List.range'_succ]
    · rw [List.foldl_cons, h2]
      rfl
    · rw [List.foldl_cons, h3]
      simp [createBall]
      omega
    · rw [List.foldl_cons, h4]
      rfl

theorem joinLoop_spec : ∀ (L : List Nat) (st : GameState) (last : Nat), 0 ∉ L →
    (joinLoop 0 st last L).balls.map (fun b => b.bid) = st.balls.map (fun b => b.bid) ∧
    (joinLoop 0 st last L).space.map ep = st.space.map ep ++ chainPairs last L ∧
    (joinLoop 0 st last L).nextId = st.nextId := by
  intro L
  induction L with
  | nil => intro st last h0; simp [joinLoop, chainPairs]
  | cons b rest ih =>
    intro st last h0
    have hb : ¬ b = 0 := by
      intro he
      exact h0 (by simp [he])
    have h0' : 0 ∉ rest := fun hm => h0 (List.mem_cons_of_mem _ hm)
    obtain ⟨h1, h2, h3⟩ := ih (joinBalls st last b) b h0'
    simp only [joinLoop, if_neg hb]
    refine ⟨?_, ?_, ?_⟩
    · rw [h1, joinBalls]
      exact map_bid_setConstraint st.balls last _
    · rw [h2, joinBalls]
      simp [chainPairs, ep]
    · rw [h3, joinBalls]

theorem chainPairs_range' : ∀ (m k : Nat),
    chainPairs k (List.range' (k + 1) m) = (List.range' k m).map (fun i => (i, i + 1)) := by
  intro m
  induction m with
  | zero => intro k; simp [chainPairs]
  | succ n ih =>
    intro k
    rw [List.range'_succ, List.range'_succ]
    simp only [chainPairs, List.map_cons]
    rw [ih (k + 1)]

theorem zero_not_mem_range'_one (n : Nat) : 0 ∉ List.range' 1 n := by
  intro h
  rw [List.mem_range'_1] at h
  omega

theorem createBalls_initBase_consec (masses : List Int) :
    ConsecChain (createBalls initBase masses) masses.length := by
  simp only [createBalls]
  obtain ⟨hb, hsp, hid, _⟩ := foldl_createBall_bids masses initBase
  have hb' : (masses.foldl createBall initBase).balls.map (fun b => b.bid)
      = 0 :: List.range' 1 masses.length := by
    rw [hb]
    rfl
  rw [hb']
  show ConsecChain (joinLoop 0 (List.foldl createBall initBase masses) 0
    (List.range' 1 masses.length)) masses.length
  obtain ⟨j1, j2, j3⟩ := joinLoop_spec (List.range' 1 masses.length)
    (masses.foldl createBall initBase) 0 (zero_not_mem_range'_one _)
  refine ⟨?_, ?_, ?_⟩
  · rw [j1, hb', List.range_eq_range', List.range'_succ]
  · show (joinLoop 0 _ 0 _).space.map ep = consecLinks masses.length
    rw [j2, hsp]
    show List.map ep initBase.space ++ chainPairs 0 (List.range' (0 + 1) masses.length)
      = consecLinks masses.length
    rw [chainPairs_range' masses.length 0]
    simp [initBase, consecLinks, List.range_eq_range']
  · rw [j3, hid]
    show initBase.nextId + masses.length = masses.length + 1
    simp [initBase]
    omega

theorem right_press_consec {st : GameState} {n : Nat} (h : ConsecChain st n) :
    ∃ st', onMousePressRight st = some st' ∧ ConsecChain st' (n + 1) := by
  obtain ⟨hb, hsp, hid⟩ := h
  have hlen : st.balls.length = n + 1 := by
    have := congrArg List.length hb
    simpa using this
  have hballs1 : (createBall st st.currentBallMass).balls
      = st.balls ++ [⟨st.nextId, st.currentBallMass, none, false⟩] := rfl
  have hlen1 : (createBall st st.currentBallMass).balls.length = n + 2 := by
    rw [hballs1]
    simp [hlen]
  have hget_n : st.balls[n]?.map (fun b => b.bid) = some n := by
    rw [← List.getElem?_map, hb]
    simp
  obtain ⟨a, ha, hab⟩ : ∃ a, st.balls[n]? = some a ∧ a.bid = n := by
    cases hx : st.balls[n]? with
    | none => rw [hx] at hget_n; exact absurd hget_n (by simp)
    | some a =>
      rw [hx] at hget_n
      exact ⟨a, rfl, by simpa using hget_n⟩
  have hA : pyGet (createBall st st.currentBallMass).balls (-2) = some a := by
    rw [pyGet_m2 (by omega), hlen1, List.get?_eq_getElem?, hballs1]
    simp only [Nat.add_sub_cancel]
    rw [List.getElem?_append, if_pos (by omega)]
    exact ha
  have hB : pyGet (createBall st st.currentBallMass).balls (-1)
      = some ⟨st.nextId, st.currentBallMass, none, false⟩ := by
    rw [pyGet_m1 (by omega), hlen1, List.get?_eq_getElem?, hballs1]
    have h21 : n + 2 - 1 = st.balls.length := by omega
    rw [h21, List.getElem?_concat_length]
  have hstep : onMousePressRight st
      = some (joinBalls (createBall st st.currentBallMass) a.bid st.nextId) := by
    simp only [onMousePressRight]
    rw [hA, hB]
  refine ⟨_, hstep, ?_, ?_, ?_⟩
  · show (joinBalls (createBall st st.currentBallMass) a.bid st.nextId).balls.map
        (fun b => b.bid) = List.range (n + 1 + 1)
    simp only [joinBalls]
    rw [map_bid_setConstraint, hballs1]
    simp [hb, hid, List.range_succ]
  · show ((joinBalls (createBall st st.currentBallMass) a.bid st.nextId).space).map ep
      = consecLinks (n + 1)
    simp only [joinBalls]
    rw [List.map_append]
    rw [show (createBall st st.currentBallMass).space = st.space from rfl]
    rw [show List.map ep st.space = epList st from rfl, hsp]
    simp [ep, hab, hid, consecLinks, List.range_succ, createBall]
  · show (joinBalls (createBall st st.currentBallMass) a.bid st.nextId).nextId = n + 1 + 1
    rw [show (joinBalls (createBall st st.currentBallMass) a.bid st.nextId).nextId
      = st.nextId + 1 from rfl, hid]

theorem applyRights_consec (n : Nat) :
    ∃ st', applyRights initBase n = some st' ∧ ConsecChain st' n := by
  induction n with
  | zero =>
    refine ⟨initBase, rfl, ?_⟩
    unfold ConsecChain
    exact ⟨rfl, rfl, rfl⟩
  | succ n ih =>
    obtain ⟨st', hst, hc⟩ := ih
    obtain ⟨st'', hst2, hc2⟩ := right_press_consec hc
    refine ⟨st'', ?_, hc2⟩
    rw [applyRights, hst]
    simpa using hst2

/-- C6. Appending builds a consecutive chain: bulk creation of N balls from
the anchor-only state, and likewise any N successive right-click appends,
yield a sequence of N+1 balls (ids 0..N in order, anchor first) and exactly N
links, each joining consecutive indices — the first link attaching to the
anchor, and each right-click joining the previous tail `balls[-2]` to the new
tail `balls[-1]`. -/
theorem appends_build_consecutive_chain :
    (∀ masses : List Int,
      ConsecChain (createBalls initBase masses) masses.length ∧
      (createBalls initBase masses).balls.length = masses.length + 1 ∧
      (createBalls initBase masses).space.length = masses.length) ∧
    (∀ n : Nat, ∃ st', applyRights initBase n = some st' ∧ ConsecChain st' n ∧
      st'.balls.length = n + 1 ∧ st'.space.length = n) := by
  have hlen : ∀ (st : GameState) (n : Nat), ConsecChain st n →
      st.balls.length = n + 1 ∧ st.space.length = n := by
    rintro st n ⟨hb, hsp, _⟩
    constructor
    · have := congrArg List.length hb
      simpa using this
    · have := congrArg List.length hsp
      simpa [epList, consecLinks] using this
  constructor
  · intro masses
    have h := createBalls_initBase_consec masses
    exact ⟨h, (hlen _ _ h).1, (hlen _ _ h).2⟩
  · intro n
    obtain ⟨st', h1, h2⟩ := applyRights_consec n
    exact ⟨st', h1, h2, (hlen _ _ h2).1, (hlen _ _ h2).2⟩

theorem constraintTo_mono {o : Option Constraint} {x y : Nat}
    {sp sp' : List Constraint} (h : ConstraintTo o x y sp) (hsub : sp ⊆ sp') :
    ConstraintTo o x y sp' := by
  cases o with
  | none => exact h.elim
  | some c => exact ⟨h.1, h.2.1, hsub h.2.2⟩

theorem chainInv_right_press {st st' : GameState} (hinv : chainInv st)
    (he : onMousePressRight st = some st') : chainInv st' := by
  obtain ⟨hne, hbound, hnodup, hlinks, htail, hatt⟩ := hinv
  have hL : 1 ≤ st.balls.length := by
    cases hb : st.balls with
    | nil => exact absurd hb hne
    | cons a t => simp
  have hlt : st.balls.length - 1 < st.balls.length := by omega
  have hballs1 : (createBall st st.currentBallMass).balls
      = st.balls ++ [⟨st.nextId, st.currentBallMass, none, false⟩] := rfl
  have hlen1 : (createBall st st.currentBallMass).balls.length = st.balls.length + 1 := by
    rw [hballs1]
    simp
  have hA : pyGet (createBall st st.currentBallMass).balls (-2)
      = some (nthBall st (st.balls.length - 1)) := by
    rw [pyGet_m2 (by omega), hlen1, List.get?_eq_getElem?, hballs1]
    have h2 : st.balls.length + 1 - 2 = st.balls.length - 1 := by omega
    rw [h2, List.getElem?_append, if_pos hlt, List.getElem?_eq_getElem hlt]
    rw [nthBall, List.getD_eq_getElem _ _ hlt]
  have hB : pyGet (createBall st st.currentBallMass).balls (-1)
      = some ⟨st.nextId, st.currentBallMass, none, false⟩ := by
    rw [pyGet_m1 (by omega), hlen1, List.get?_eq_getElem?, hballs1]
    have h2 : st.balls.length + 1 - 1 = st.balls.length := by omega
    rw [h2, List.getElem?_concat_length]
  have hstep : onMousePressRight st
      = some (joinBalls (createBall st st.currentBallMass)
          (nthBall st (st.balls.length - 1)).bid st.nextId) := by
    simp only [onMousePressRight]
    rw [hA, hB]
  rw [hstep] at he
  injection he with he'
  subst he'
  set tl : BallM := nthBall st (st.balls.length - 1) with htl
  set nb : BallM := (⟨st.nextId, st.currentBallMass, none, false⟩ : BallM) with hnb
  set cNew : Constraint := (⟨st.nextCid, tl.bid, st.nextId⟩ : Constraint) with hcNew
  have htlmem : tl ∈ st.balls := getD_mem_of_lt st.balls _ hlt
  have htlb : tl.bid < st.nextId := hbound tl htlmem
  have hb' : (joinBalls (createBall st st.currentBallMass) tl.bid st.nextId).balls
      = (st.balls ++ [nb]).map (setConstraint tl.bid cNew) := rfl
  have hs' : (joinBalls (createBall st st.currentBallMass) tl.bid st.nextId).space
      = st.space ++ [cNew] := rfl
  have hn' : (joinBalls (createBall st st.currentBallMass) tl.bid st.nextId).nextId
      = st.nextId + 1 := rfl
  have ha' : (joinBalls (createBall st st.currentBallMass) tl.bid st.nextId).attached
      = st.attached := rfl
  have hlen' : (joinBalls (createBall st st.currentBallMass) tl.bid st.nextId).balls.length
      = st.balls.length + 1 := by
    rw [hb']
    simp
  have hnth : ∀ j, j < st.balls.length + 1 →
      nthBall (joinBalls (createBall st st.currentBallMass) tl.bid st.nextId) j
        = setConstraint tl.bid cNew ((st.balls ++ [nb]).getD j dummyBall) := by
    intro j hj
    rw [nthBall, hb', getD_map_of_lt]
    simpa using hj
  have hnb_fix : setConstraint tl.bid cNew nb = nb := by
    apply setConstraint_of_ne
    show st.nextId ≠ tl.bid
    omega
  unfold chainInv
  refine ⟨?_, ?_, ?_, ?_, ?_, ?_⟩
  · rw [hb']
    simp
  · intro b hb
    rw [hb', hn'] at *
    rw [List.mem_map] at hb
    obtain ⟨b0, hb0, rfl⟩ := hb
    rw [setConstraint_bid]
    rw [List.mem_append] at hb0
    rcases hb0 with h | h
    · exact Nat.lt_succ_of_lt (hbound b0 h)
    · have : b0 = nb := by simpa using h
      rw [this, hnb]
      exact Nat.lt_succ_self _
  · rw [hb', map_bid_setConstraint, List.map_append]
    rw [List.nodup_append]
    refine ⟨hnodup, by simp, ?_⟩
    intro a ha hb
    have hb2 : a = st.nextId := by
      rw [hnb] at hb
      simpa using hb
    subst hb2
    rw [List.mem_map] at ha
    obtain ⟨b0, hb0, hbid⟩ := ha
    exact absurd hbid (Nat.ne_of_lt (hbound b0 hb0))
  · intro i hi
    rw [hlen'] at hi
    have hi' : i < st.balls.length := by omega
    rw [hnth i (by omega), hnth (i + 1) (by omega), hs']
    by_cases hil : i = st.balls.length - 1
    · have hi1 : i + 1 = st.balls.length := by omega
      have hgi : (st.balls ++ [nb]).getD i dummyBall = tl := by
        rw [getD_append_of_lt _ _ _ hi', hil]
        rfl
      have hgi1 : (st.balls ++ [nb]).getD (i + 1) dummyBall = nb := by
        rw [hi1, getD_concat_length]
      rw [hgi, hgi1, hnb_fix]
      have hset : setConstraint tl.bid cNew tl
          = { tl with constraint := some cNew } := by
        unfold setConstraint
        rw [if_pos rfl]
      rw [hset]
      exact ⟨rfl, rfl, by simp⟩
    · have hi2 : i + 1 < st.balls.length := by omega
      have hgi : (st.balls ++ [nb]).getD i dummyBall = nthBall st i := by
        rw [getD_append_of_lt _ _ _ hi']
        rfl
      have hgi1 : (st.balls ++ [nb]).getD (i + 1) dummyBall = nthBall st (i + 1) := by
        rw [getD_append_of_lt _ _ _ hi2]
        rfl
      have hfix : setConstraint tl.bid cNew (nthBall st i) = nthBall st i := by
        apply setConstraint_of_ne
        intro heq
        exact hil (bid_getD_inj hnodup hi' hlt heq)
      rw [hgi, hgi1, hfix, setConstraint_bid]
      exact constraintTo_mono (hlinks i (by omega)) (List.subset_append_left _ _)
  · rw [hlen']
    have h2 : st.balls.length + 1 - 1 = st.balls.length := by omega
    rw [h2, hnth _ (by omega), getD_concat_length, hnb_fix, hnb]
  · rw [ha', hatt]

/-- C3 (amended). Each node's stored constraint reference is the link to its
SUCCESSOR: `join_balls(a, b)` stores the new joint on `a`, the earlier node,
so after construction — and preserved by every right-click append — the node
at index `i` (for every non-tail `i`) holds the joint whose endpoints are its
own id and the id of the node at `i+1`, that joint being present in the
space, while the tail's reference is `None`.  (This is the content of
`chainInv`; the spec's "owned by the later node / linking it to its
predecessor" has the direction backwards, refuted separately.) -/
theorem successor_link_ownership :
    chainInv initState ∧
    (∀ st st' : GameState, chainInv st → onMousePressRight st = some st' → chainInv st') :=
  ⟨by decide, fun _ _ h he => chainInv_right_press h he⟩

/-- C3 witness: the invariant holds after a concrete right-click append to the
initial chain. -/
theorem successor_link_ownership_witness :
    chainInv ((onMousePressRight initState).getD initBase) :=
  successor_link_ownership.2 initState ((onMousePressRight initState).getD initBase)
    successor_link_ownership.1 (by decide)

/-- C4. Grab-then-release round trip: for every valid idle chain and every
non-anchor node (index `i > 0`), a left press on that node followed by a
release succeeds and yields a chain with the same node order (identical ball
id sequence), the same multiset of link endpoint pairs in the physics space
(the destroyed predecessor joint — and successor joint, when the node has one
— are recreated between the same neighbors), and no attachment left. -/
theorem press_release_restores_chain (st : GameState) (i : Nat)
    (hinv : chainInv st) (h0 : 0 < i) (hi : i < st.balls.length) :
    ∃ st', onMouseRelease (onMousePressLeft st (some (nthBall st i).bid)) = some st' ∧
      st'.balls.map (fun b => b.bid) = st.balls.map (fun b => b.bid) ∧
      (epList st').Perm (epList st) ∧
      st'.attached = none := by
  obtain ⟨hne, hbound, hnodup, hlinks, htail, hatt⟩ := hinv
  have hidx : indexOfBid st.balls (nthBall st i).bid = some i := by
    show indexOfBid st.balls ((st.balls.getD i dummyBall).bid) = some i
    exact indexOfBid_getD hnodup i hi
  have hprev : pyGet st.balls ((i : Int) - 1) = some (nthBall st (i - 1)) := by
    rw [pyGet_nonneg _ (by omega)]
    have ht : ((i : Int) - 1).toNat = i - 1 := by omega
    rw [ht, List.get?_eq_getElem?, List.getElem?_eq_getElem (by omega)]
    rw [nthBall, List.getD_eq_getElem _ _ (by omega : i - 1 < st.balls.length)]
  have hlink_prev := hlinks (i - 1) (by omega)
  rw [show i - 1 + 1 = i from by omega] at hlink_prev
  cases hc1 : (nthBall st (i - 1)).constraint with
  | none =>
    rw [hc1] at hlink_prev
    exact hlink_prev.elim
  | some c1 =>
    rw [hc1] at hlink_prev
    obtain ⟨hc1a, hc1b, hc1mem⟩ := hlink_prev
    have hsr : spaceRemove st.space (some c1) = some (st.space.erase c1) := by
      show (if c1 ∈ st.space then some (st.space.erase c1) else none) = _
      rw [if_pos hc1mem]
    have hne_bid : (nthBall st i).bid ≠ (nthBall st (i - 1)).bid := by
      intro heq
      have := bid_getD_inj hnodup hi (by omega : i - 1 < st.balls.length) heq
      omega
    have hgetMid : (st.balls.map (setConstraint (nthBall st (i - 1)).bid
        ⟨st.nextCid, (nthBall st (i - 1)).bid, (nthBall st i).bid⟩)).getD i dummyBall
        = nthBall st i := by
      rw [getD_map_of_lt _ _ _ hi]
      show setConstraint _ _ (nthBall st i) = nthBall st i
      exact setConstraint_of_ne _ _ _ hne_bid
    have hndMid : ((st.balls.map (setConstraint (nthBall st (i - 1)).bid
        ⟨st.nextCid, (nthBall st (i - 1)).bid, (nthBall st i).bid⟩)).map
          (fun b => b.bid)).Nodup := by
      rw [map_bid_setConstraint]
      exact hnodup
    have hfind : findBall (joinBalls
        { st with space := st.space.erase c1, attached := some (nthBall st i).bid }
        (nthBall st (i - 1)).bid (nthBall st i).bid) (nthBall st i).bid
        = some (nthBall st i) := by
      show (st.balls.map (setConstraint (nthBall st (i - 1)).bid
        ⟨st.nextCid, (nthBall st (i - 1)).bid, (nthBall st i).bid⟩)).find?
          (fun b => b.bid == (nthBall st i).bid) = some (nthBall st i)
      have h := find?_bid_getD hndMid i (by simpa using hi)
      rw [hgetMid] at h
      exact h
    by_cases hitail : i = st.balls.length - 1
    · have hnode : (nthBall st i).constraint = none := by
        rw [hitail]
        exact htail
      refine ⟨{ joinBalls
          { st with space := st.space.erase c1, attached := some (nthBall st i).bid }
          (nthBall st (i - 1)).bid (nthBall st i).bid with attached := none },
        ?_, ?_, ?_, rfl⟩
      · show onMouseRelease { st with attached := some (nthBall st i).bid } = some _
        simp only [onMouseRelease]
        rw [hidx]
        simp only []
        rw [hprev]
        simp only []
        rw [hc1, hsr]
        simp only []
        rw [hfind]
        simp only []
        rw [hnode]
      · show (st.balls.map (setConstraint (nthBall st (i - 1)).bid
            ⟨st.nextCid, (nthBall st (i - 1)).bid, (nthBall st i).bid⟩)).map (fun b => b.bid)
          = st.balls.map (fun b => b.bid)
        exact map_bid_setConstraint _ _ _
      · show (((st.space.erase c1)
            ++ [(⟨st.nextCid, (nthBall st (i - 1)).bid,
                  (nthBall st i).bid⟩ : Constraint)]).map ep).Perm
          (st.space.map ep)
        rw [List.map_append]
        simp only [List.map_cons, List.map_nil]
        have hep1 : ep (⟨st.nextCid, (nthBall st (i - 1)).bid, (nthBall st i).bid⟩
            : Constraint) = ep c1 := by
          show ((nthBall st (i - 1)).bid, (nthBall st i).bid) = (c1.a, c1.b)
          rw [hc1a, hc1b]
        rw [hep1]
        have hm1 : (st.space.map ep).Perm (ep c1 :: (st.space.erase c1).map ep) := by
          simpa using (List.perm_cons_erase hc1mem).map ep
        exact List.perm_append_comm.trans hm1.symm
    · have hint : i < st.balls.length - 1 := by omega
      have hlink_i := hlinks i hint
      cases hc2 : (nthBall st i).constraint with
      | none =>
        rw [hc2] at hlink_i
        exact hlink_i.elim
      | some c2 =>
        rw [hc2] at hlink_i
        obtain ⟨hc2a, hc2b, hc2mem⟩ := hlink_i
        have hc2ne : c2 ≠ c1 := by
          intro heq
          apply hne_bid
          rw [← hc2a, heq, hc1a]
        have hc2memE : c2 ∈ st.space.erase c1 := (List.mem_erase_of_ne hc2ne).mpr hc2mem
        have hsr2 : spaceRemove (joinBalls
              { st with space := st.space.erase c1, attached := some (nthBall st i).bid }
              (nthBall st (i - 1)).bid (nthBall st i).bid).space (some c2)
            = some (((st.space.erase c1).erase c2)
              ++ [(⟨st.nextCid, (nthBall st (i - 1)).bid,
                    (nthBall st i).bid⟩ : Constraint)]) := by
          show (if c2 ∈ (st.space.erase c1)
                ++ [(⟨st.nextCid, (nthBall st (i - 1)).bid, (nthBall st i).bid⟩ : Constraint)]
              then some (((st.space.erase c1)
                ++ [(⟨st.nextCid, (nthBall st (i - 1)).bid,
                      (nthBall st i).bid⟩ : Constraint)]).erase c2)
              else none) = _
          rw [if_pos (List.mem_append_left _ hc2memE)]
          rw [List.erase_append_left _ hc2memE]
        refine ⟨{ joinBalls
            { joinBalls
                { st with space := st.space.erase c1, attached := some (nthBall st i).bid }
                (nthBall st (i - 1)).bid (nthBall st i).bid with
              space := ((st.space.erase c1).erase c2)
                ++ [(⟨st.nextCid, (nthBall st (i - 1)).bid,
                      (nthBall st i).bid⟩ : Constraint)] }
            (nthBall st i).bid c2.b with attached := none },
          ?_, ?_, ?_, rfl⟩
        · show onMouseRelease { st with attached := some (nthBall st i).bid } = some _
          simp only [onMouseRelease]
          rw [hidx]
          simp only []
          rw [hprev]
          simp only []
          rw [hc1, hsr]
          simp only []
          rw [hfind]
          simp only []
          rw [hc2]
          simp only []
          rw [hsr2]
        · show ((st.balls.map (setConstraint (nthBall st (i - 1)).bid
              ⟨st.nextCid, (nthBall st (i - 1)).bid, (nthBall st i).bid⟩)).map
                (setConstraint (nthBall st i).bid
                  ⟨st.nextCid + 1, (nthBall st i).bid, c2.b⟩)).map (fun b => b.bid)
            = st.balls.map (fun b => b.bid)
          rw [map_bid_setConstraint, map_bid_setConstraint]
        · show (((((st.space.erase c1).erase c2)
              ++ [(⟨st.nextCid, (nthBall st (i - 1)).bid,
                    (nthBall st i).bid⟩ : Constraint)])
              ++ [(⟨st.nextCid + 1, (nthBall st i).bid, c2.b⟩ : Constraint)]).map ep).Perm
            (st.space.map ep)
          rw [List.map_append, List.map_append]
          simp only [List.map_cons, List.map_nil]
          have hep1 : ep (⟨st.nextCid, (nthBall st (i - 1)).bid, (nthBall st i).bid⟩
              : Constraint) = ep c1 := by
            show ((nthBall st (i - 1)).bid, (nthBall st i).bid) = (c1.a, c1.b)
            rw [hc1a, hc1b]
          have hep2 : ep (⟨st.nextCid + 1, (nthBall st i).bid, c2.b⟩
              : Constraint) = ep c2 := by
            show ((nthBall st i).bid, c2.b) = (c2.a, c2.b)
            rw [hc2a]
          rw [hep1, hep2]
          have hm1 : (st.space.map ep).Perm (ep c1 :: (st.space.erase c1).map ep) := by
            simpa using (List.perm_cons_erase hc1mem).map ep
          have hm2 : ((st.space.erase c1).map ep).Perm
              (ep c2 :: ((st.space.erase c1).erase c2).map ep) := by
            simpa using (List.perm_cons_erase hc2memE).map ep
          have hm3 : (st.space.map ep).Perm
              (ep c1 :: ep c2 :: ((st.space.erase c1).erase c2).map ep) :=
            hm1.trans (hm2.cons (ep c1))
          have hl1 : ((((st.space.erase c1).erase c2).map ep ++ [ep c1]) ++ [ep c2]).Perm
              (ep c2 :: (((st.space.erase c1).erase c2).map ep ++ [ep c1])) :=
            List.perm_append_comm
          have hl2 : ((((st.space.erase c1).erase c2).map ep ++ [ep c1])).Perm
              (ep c1 :: ((st.space.erase c1).erase c2).map ep) :=
            List.perm_append_comm
          have hl3 := hl1.trans (hl2.cons (ep c2))
          have hl4 := hl3.trans (List.Perm.swap (ep c1) (ep c2) _)
          exact hl4.trans hm3.symm

/-- C4 witness: the round trip applied to ball 1 of the initial chain. -/
theorem press_release_restores_chain_witness :
    (onMouseRelease (onMousePressLeft initState (some (nthBall initState 1).bid))).map
        (fun s => (s.balls.map (fun b => b.bid), s.attached))
      = some (initState.balls.map (fun b => b.bid), none) := by
  obtain ⟨st', he, hbid, hperm, hatt⟩ :=
    press_release_restores_chain initState 1 (by decide) (by decide) (by decide)
  rw [he]
  simp [hbid, hatt]

end PendulumGame
